import Mathlib

/-!
Verification development for the `pandora-api-derive` crate (`src/lib.rs`).

The crate is a pair of proc-macro derive entry points
(`derive_pandora_json_request`, `derive_pandora_rest_request`) that parse a
struct declaration plus its `#[pandora_request(...)]` attribute into a field
record (identifier, generics, and four optional overrides) and synthesize an
implementation of `PandoraJsonApiRequest` / `PandoraRestApiRequest`.

This file gives a shallow embedding of that pipeline:

* the character-level helpers model the Rust standard library's case
  predicates and conversions on the ASCII range, where Rust's Unicode
  functions coincide with the ASCII ones (all identifiers and paths that
  appear in the claims are ASCII);
* `lowerCamelCase` models `heck::ToLowerCamelCase` (heck 0.4): split on
  non-alphanumeric characters, segment each split word at case boundaries,
  lowercase the first word, capitalize the rest, join with no separator;
* `rsplitn2` models `str::rsplitn(2, "::")` (collected to a list; the
  separator `"::"` is a palindrome, so the rightmost match in the string is
  the first match of the separator in the reversed string);
* `jsonToTokens` / `restToTokens` model the two `ToTokens` impls
  (lib.rs 55-122 and 155-222), producing a record of the emitted impl block;
* `evalGetMethod` gives the run-time semantics of the generated
  `get_method` body, as a function of the `module_path!()` string observed
  in the expansion context;
* `derive_pandora_json_request` / `derive_pandora_rest_request` model the
  two `#[proc_macro_derive]` entry points (lib.rs 126-133 and 226-233),
  with the external parsers (`syn::parse`, darling's `from_derive_input`)
  passed in as function arguments.
-/

/-! ASCII character model

Rust's `char::is_lowercase` / `is_uppercase` / `is_alphanumeric` and the
`to_lowercase` / `to_uppercase` conversions are Unicode-aware; on the ASCII
range they coincide with the functions below, which is the range this
development models. -/
/-- Models Rust `char::is_lowercase` on the ASCII range: `'a'..='z'`. -/
def isAsciiLower (c : Char) : Bool :=
  decide (97 ≤ c.toNat) && decide (c.toNat ≤ 122)

/-- Models Rust `char::is_uppercase` on the ASCII range: `'A'..='Z'`. -/
def isAsciiUpper (c : Char) : Bool :=
  decide (65 ≤ c.toNat) && decide (c.toNat ≤ 90)

/-- Models Rust `char::is_numeric` on the ASCII range: `'0'..='9'`. -/
def isAsciiDigit (c : Char) : Bool :=
  decide (48 ≤ c.toNat) && decide (c.toNat ≤ 57)

/-- Models Rust `char::is_alphanumeric` on the ASCII range. -/
def isAlnumChar (c : Char) : Bool :=
  isAsciiLower c || isAsciiUpper c || isAsciiDigit c

/-- Models Rust `char::to_lowercase` on the ASCII range (a single-character
mapping there). -/
def asciiToLower (c : Char) : Char :=
  if isAsciiUpper c then Char.ofNat (c.toNat + 32) else c

/-- Models Rust `char::to_uppercase` on the ASCII range (a single-character
mapping there). -/
def asciiToUpper (c : Char) : Char :=
  if isAsciiLower c then Char.ofNat (c.toNat - 32) else c

/-! The heck `ToLowerCamelCase` model

heck's `transform` first splits the input on non-alphanumeric characters
(Rust `str::split` semantics, keeping empty pieces), then scans each piece
with a three-state mode machine, emitting a sub-word

* after a cased-lowercase character followed by an uppercase one, and
* before an uppercase character that follows an uppercase run and precedes
  a lowercase one,

and finally lowercases the first emitted word and capitalizes the rest,
joining with no separator. -/
/-- Models Rust `str::split(pred)` (collected): splits at every character
satisfying `p`, keeping empty pieces, and yields one (empty) piece for the
empty string. -/
def splitOnPred (p : Char → Bool) : List Char → List (List Char)
  | [] => [[]]
  | c :: cs =>
    if p c then [] :: splitOnPred p cs
    else
      match splitOnPred p cs with
      | [] => [[c]]
      | w :: ws => (c :: w) :: ws

/-- The split used by heck's `transform`: on every non-alphanumeric char. -/
def splitWords (s : List Char) : List (List Char) :=
  splitOnPred (fun c => !isAlnumChar c) s

/-- Models heck's `WordMode`: the case of the last cased character seen in
the current word. -/
inductive WordMode where
  | boundary
  | lowercase
  | uppercase
deriving DecidableEq, Repr

/-- The mode update in heck's scan: an uncased character keeps the mode. -/
def nextModeOf (mode : WordMode) (c : Char) : WordMode :=
  if isAsciiLower c then .lowercase
  else if isAsciiUpper c then .uppercase
  else mode

/-- Models the `while let` scan of heck's `transform` over one split word:
`acc` is the slice `word[init..i]` accumulated so far, the lookahead
character drives the two boundary rules, and the final character always
closes the current sub-word. The empty word emits nothing. -/
def segmentCore (mode : WordMode) (acc : List Char) : List Char → List (List Char)
  | [] => []
  | [c] => [acc ++ [c]]
  | c :: next :: rest =>
    let nm := nextModeOf mode c
    if nm = WordMode.lowercase ∧ isAsciiUpper next = true then
      (acc ++ [c]) :: segmentCore .boundary [] (next :: rest)
    else if mode = WordMode.uppercase ∧ isAsciiUpper c = true ∧ isAsciiLower next = true then
      acc :: segmentCore .boundary [c] (next :: rest)
    else
      segmentCore nm (acc ++ [c]) (next :: rest)

/-- Segment one split word, starting (as heck does) at `Boundary` mode with
an empty accumulated slice. -/
def segmentWord (w : List Char) : List (List Char) :=
  segmentCore .boundary [] w

/-- Segment every split word and concatenate the resulting word lists (the
`first_word` flag in heck's `transform` persists across split words). -/
def segmentAll : List (List Char) → List (List Char)
  | [] => []
  | w :: ws => segmentWord w ++ segmentAll ws

/-- Models heck's `lowercase` word writer on the ASCII range (the final-sigma
special case involves no ASCII character). -/
def lowercaseWord (w : List Char) : List Char :=
  w.map asciiToLower

/-- Models heck's `capitalize` word writer: uppercase the first character,
lowercase the rest. -/
def capitalizeWord : List Char → List Char
  | [] => []
  | c :: t => asciiToUpper c :: t.map asciiToLower

/-- Capitalize every word of a list and concatenate (camel case inserts no
separator between words). -/
def capitalizeAll : List (List Char) → List Char
  | [] => []
  | w :: ws => capitalizeWord w ++ capitalizeAll ws

/-- Models `heck::ToLowerCamelCase::to_lower_camel_case` on the ASCII range:
the first emitted word is lowercased, all later ones are capitalized, and
words are joined with no separator. -/
def lowerCamelCase (s : List Char) : List Char :=
  match segmentAll (splitWords s) with
  | [] => []
  | w :: ws => lowercaseWord w ++ capitalizeAll ws

/-! The `rsplitn(2, "::")` model -/
/-- The module-path separator `"::"` as a character list. -/
def colons : List Char := [':', ':']

/-- Splits a list at the first occurrence of (the non-empty) `sep`:
`some (before, after)` when `sep` occurs, `none` otherwise. This is the
left-to-right search of Rust's forward pattern matcher. -/
def splitFirst (sep : List Char) : List Char → Option (List Char × List Char)
  | [] => none
  | c :: cs =>
    if sep.isPrefixOf (c :: cs) then some ([], (c :: cs).drop sep.length)
    else
      match splitFirst sep cs with
      | some pq => some (c :: pq.1, pq.2)
      | none => none

/-- Models `str::rsplitn(2, sep)` collected into a list, for a palindromic
separator such as `"::"`: the rightmost occurrence of `sep` in `s` is the
first occurrence of `sep.reverse` in `s.reverse`. The first element is the
text after the rightmost occurrence, the second the (unsplit) text before
it; a string with no occurrence yields itself as the single element. -/
def rsplitn2 (sep s : List Char) : List (List Char) :=
  match splitFirst sep.reverse s.reverse with
  | some pq => [pq.1.reverse, pq.2.reverse]
  | none => [s]

/-! Data model of the derive input and the emitted impl block

The two darling structs `PandoraJsonRequest` (lib.rs 39-53) and
`PandoraRestRequest` (lib.rs 139-153) declare byte-for-byte identical field
sets; both are modelled by `RequestDescriptor`. Every `#[darling(default)]`
field is an `Option` that is `none` exactly when the attribute key is
absent. -/
/-- Models one generic parameter of the annotated struct: its name together
with the bounds attached to it at the declaration. -/
structure GenericParam where
  name : String
  bounds : List String
deriving DecidableEq, Repr

/-- Models `syn::Generics`: the parameter list of the annotated struct and
its where-clause predicates. -/
structure Generics where
  params : List GenericParam
  whereClause : List String
deriving DecidableEq, Repr

/-- Models `syn::Generics::split_for_impl`: the impl generics keep the
declared bounds, the type generics are the bare parameter names, and the
where clause is passed through unchanged. -/
def Generics.splitForImpl (g : Generics) : List GenericParam × List String × List String :=
  (g.params, g.params.map GenericParam.name, g.whereClause)

/-- Models the field set shared by the darling structs `PandoraJsonRequest`
(lib.rs 39-53) and `PandoraRestRequest` (lib.rs 139-153): the struct
identifier, its generics, and the four independent optional overrides of the
`#[pandora_request(...)]` attribute. -/
structure RequestDescriptor where
  ident : String
  generics : Generics
  response_type : Option String
  error_type : Option String
  method_name : Option String
  encrypted : Option Bool
deriving DecidableEq, Repr

/-- The two method-format templates of the Kind strategy: `"{scope}.{member}"`
for the JSON flavor and `"/api/v1/{scope}/{member}"` for the REST flavor
(the only difference between the two `quote!` templates in the derived-name
branches, lib.rs 95 and 195). -/
inductive MethodFormat where
  | json
  | rest
deriving DecidableEq, Repr

/-- Models the `get_method` item of the emitted impl block: either the
override branch (lib.rs 83-88 / 183-188), whose body is
`stringify!(#method_name).to_string()` with the override interpolated as a
string literal, or the derived branch (lib.rs 89-98 / 189-198), whose body
re-derives the scope from `module_path!()` at run time and combines it with
the precomputed lower-camel-case member name. -/
inductive GetMethodDecl where
  | literalOverride (s : String)
  | derived (fmt : MethodFormat) (lccName : String)
deriving DecidableEq, Repr

/-- Models the impl block emitted by `to_tokens` (lib.rs 113-120 / 213-220):
the implemented trait, the three `split_for_impl` slots, the self type, the
two associated types, the optional `encrypt_request` item (`none` when the
`encrypted` key is absent, in which case no accessor is emitted at all,
lib.rs 100-108 / 200-208), and the `get_method` item. -/
structure GeneratedImpl where
  traitName : String
  implGenerics : List GenericParam
  tyGenerics : List String
  whereClause : List String
  selfTy : String
  responseType : String
  errorType : String
  encryptRequest : Option Bool
  getMethod : GetMethodDecl
deriving DecidableEq, Repr

/-- Models `<PandoraJsonRequest as ToTokens>::to_tokens` (lib.rs 55-122):
defaulting of the response type to `{ident}Response` and the error type to
`Error`, verbatim pass-through of the `encrypted` option, selection of the
`get_method` branch on the `method_name` option, and threading of the
`split_for_impl` pieces into the emitted impl. -/
def jsonToTokens (r : RequestDescriptor) : GeneratedImpl :=
  { traitName := "PandoraJsonApiRequest"
    implGenerics := r.generics.splitForImpl.1
    tyGenerics := r.generics.splitForImpl.2.1
    whereClause := r.generics.splitForImpl.2.2
    selfTy := r.ident
    responseType :=
      match r.response_type with
      | some s => s
      | none => r.ident ++ "Response"
    errorType :=
      match r.error_type with
      | some s => s
      | none => "Error"
    encryptRequest := r.encrypted
    getMethod :=
      match r.method_name with
      | some m => .literalOverride m
      | none => .derived .json (String.mk (lowerCamelCase r.ident.data)) }

/-- Models `<PandoraRestRequest as ToTokens>::to_tokens` (lib.rs 155-222):
identical to `jsonToTokens` except for the implemented trait name and the
method-format template of the derived branch. -/
def restToTokens (r : RequestDescriptor) : GeneratedImpl :=
  { traitName := "PandoraRestApiRequest"
    implGenerics := r.generics.splitForImpl.1
    tyGenerics := r.generics.splitForImpl.2.1
    whereClause := r.generics.splitForImpl.2.2
    selfTy := r.ident
    responseType :=
      match r.response_type with
      | some s => s
      | none => r.ident ++ "Response"
    errorType :=
      match r.error_type with
      | some s => s
      | none => "Error"
    encryptRequest := r.encrypted
    getMethod :=
      match r.method_name with
      | some m => .literalOverride m
      | none => .derived .rest (String.mk (lowerCamelCase r.ident.data)) }

/-! Run-time semantics of the generated `get_method` body -/
/-- Escapes one character the way `proc_macro2::Literal::string` renders it
inside a string literal token, for printable non-control characters: only
the quote and the backslash are escaped. -/
def escapeLitChar (c : Char) : List Char :=
  if c = '"' then ['\\', '"']
  else if c = '\\' then ['\\', '\\']
  else [c]

/-- The run-time value of `stringify!(#s)` in the generated override branch:
`quote!` interpolates the `String` override as a string literal token, and
`stringify!` renders that token back as source text, quotes and escapes
included. -/
def stringifyLit (s : List Char) : List Char :=
  '"' :: (s.flatMap escapeLitChar ++ ['"'])

/-- The expect message of the derived branch (lib.rs 94 / 194). -/
def expectMsg : String :=
  "Could not infer a valid method name since there is no current module. Must pass #[pandora_request(method_name = \"<value>\")] as part of the derive."

/-- Outcome of running a generated `get_method` body: the returned string,
or a panic (the `expect` of the derived branch). -/
inductive RunResult where
  | ok (out : List Char)
  | panicked (msg : String)
deriving DecidableEq, Repr

/-- The Kind format templates applied to a scope name and a member name:
`format!("{}.{}", cls, m)` for JSON (lib.rs 95) and
`format!("/api/v1/{}/{}", cls, m)` for REST (lib.rs 195). -/
def applyFormat : MethodFormat → List Char → List Char → List Char
  | .json, cls, m => cls ++ '.' :: m
  | .rest, cls, m => "/api/v1/".data ++ cls ++ '/' :: m

/-- Models running the generated `get_method` body in an expansion context
whose `module_path!()` is `modulePath`: the override branch returns the
`stringify!`-rendered literal; the derived branch takes
`module_path!().rsplitn(2, "::").next()` as the scope, panicking with
`expectMsg` if that yields nothing (lib.rs 92-96 / 192-196). -/
def evalGetMethod : GetMethodDecl → List Char → RunResult
  | .literalOverride s, _ => .ok (stringifyLit s.data)
  | .derived fmt m, modulePath =>
    match (rsplitn2 colons modulePath).head? with
    | some cls => .ok (applyFormat fmt cls m.data)
    | none => .panicked expectMsg

/-! Entry points -/
/-- Outcome of one macro invocation: an emitted impl block, a panic (what
`unwrap`/`expect` produce, surfaced by the host compiler as a proc-macro
panic for that invocation), or a spanned diagnostic emitted by the generator
itself. The code under verification never produces the `diagnostic` form. -/
inductive ExpansionOutcome where
  | emitted (g : GeneratedImpl)
  | panicked (msg : String)
  | diagnostic (msg : String)
deriving DecidableEq, Repr

/-- The panic message of `Result::unwrap` on an `Err` value (abbreviated:
the Rust message also appends the debug form of the error). -/
def unwrapMsg : String := "called Result::unwrap() on an Err value"

/-- Models `derive_pandora_json_request` (lib.rs 126-133). The two external
parsing stages are passed in as arguments: `synParse` stands for
`syn::parse(input)` (`MalformedInput` failures) and `fromDeriveInput` for
`PandoraJsonRequest::from_derive_input` (`AttributeSchemaViolation`
failures). The entry point calls `.unwrap()` on the first and
`.expect("Failed parsing macro input")` on the second, so both failure paths
panic; on success it emits `quote! {#request}`, i.e. the `to_tokens`
output. -/
def derive_pandora_json_request {α : Type} (synParse : Except String α)
    (fromDeriveInput : α → Except String RequestDescriptor) : ExpansionOutcome :=
  match synParse with
  | .error _ => .panicked unwrapMsg
  | .ok di =>
    match fromDeriveInput di with
    | .error _ => .panicked "Failed parsing macro input"
    | .ok r => .emitted (jsonToTokens r)

/-- Models `derive_pandora_rest_request` (lib.rs 226-233), identical to the
JSON entry point except that it parses into `PandoraRestRequest` and emits
the REST-flavored impl. -/
def derive_pandora_rest_request {α : Type} (synParse : Except String α)
    (fromDeriveInput : α → Except String RequestDescriptor) : ExpansionOutcome :=
  match synParse with
  | .error _ => .panicked unwrapMsg
  | .ok di =>
    match fromDeriveInput di with
    | .error _ => .panicked "Failed parsing macro input"
    | .ok r => .emitted (restToTokens r)

/-- Modelled from the spec: the effective run-time value of
`encrypt_request()` for a generated impl. The generator emits an accessor
only when the `encrypted` key is present (lib.rs 100-108 / 200-208); when it
is absent the implemented trait's default method applies, and the crate's
own documentation (lib.rs 18-20) records that the default is to send the
request unencrypted, i.e. `false`. That trait lives in the external
`pandora_api` crate and is missing from this repository. -/
def effectiveEncrypt (g : GeneratedImpl) : Bool :=
  g.encryptRequest.getD false

/-- A hierarchical namespace path: segments joined by the `"::"` separator,
the shape `module_path!()` produces (crate name alone at the outermost
scope). -/
def joinPath : List (List Char) → List Char
  | [] => []
  | [s] => s
  | s :: t :: rest => s ++ ':' :: ':' :: joinPath (t :: rest)

/-- The spec's worked example: `GetPlaylist`, no overrides. -/
def descGetPlaylist : RequestDescriptor :=
  { ident := "GetPlaylist"
    generics := ⟨[], []⟩
    response_type := none
    error_type := none
    method_name := none
    encrypted := none }

/-- A descriptor carrying an explicit `method_name` override. -/
def descGetFooOverride : RequestDescriptor :=
  { ident := "GetFoo"
    generics := ⟨[], []⟩
    response_type := none
    error_type := none
    method_name := some "getFOOBar"
    encrypted := none }

/-- True exactly on the `diagnostic` outcome form. -/
def isDiagnostic : ExpansionOutcome → Bool
  | .diagnostic _ => true
  | _ => false

/-- A plain descriptor with no overrides, for the outermost-scope claims. -/
def descGetFoo : RequestDescriptor :=
  { ident := "GetFoo"
    generics := ⟨[], []⟩
    response_type := none
    error_type := none
    method_name := none
    encrypted := none }

/-- Spec-side definition for the refinement claim C9: the REST impl as the
spec describes it — the JSON impl with only the implemented trait name and
the derived-branch method-format template exchanged. -/
def retargetToRest (g : GeneratedImpl) : GeneratedImpl :=
  { g with
    traitName := "PandoraRestApiRequest"
    getMethod :=
      match g.getMethod with
      | .literalOverride s => .literalOverride s
      | .derived _ m => .derived .rest m }

/-- Concatenation of a list of words, with no separator. -/
def flattenWords : List (List Char) → List Char
  | [] => []
  | w :: ws => w ++ flattenWords ws

/-- A word in strict capitalized form: one ASCII uppercase letter followed
by a nonempty run of ASCII lowercase letters. -/
def isCapWord : List Char → Bool
  | [] => false
  | u :: t => isAsciiUpper u && !t.isEmpty && t.all isAsciiLower

theorem lower_not_upper {c : Char} (h : isAsciiLower c = true) :
    isAsciiUpper c = false := by
  apply Bool.eq_false_iff.mpr
  simp only [isAsciiLower, isAsciiUpper, Bool.and_eq_true, decide_eq_true_eq,
    ne_eq, not_and] at h ⊢
  omega

theorem upper_not_lower {c : Char} (h : isAsciiUpper c = true) :
    isAsciiLower c = false := by
  apply Bool.eq_false_iff.mpr
  simp only [isAsciiLower, isAsciiUpper, Bool.and_eq_true, decide_eq_true_eq,
    ne_eq, not_and] at h ⊢
  omega

theorem asciiToLower_fix {c : Char} (h : isAsciiLower c = true) :
    asciiToLower c = c := by
  simp [asciiToLower, lower_not_upper h]

theorem asciiToUpper_fix {c : Char} (h : isAsciiUpper c = true) :
    asciiToUpper c = c := by
  simp [asciiToUpper, upper_not_lower h]

theorem lowerCamelCase_getPlaylist :
    lowerCamelCase "GetPlaylist".data = "getPlaylist".data := by decide

theorem lowerCamelCase_getFoo :
    lowerCamelCase "GetFoo".data = "getFoo".data := by decide

theorem rsplitn2_example :
    rsplitn2 colons "pandora_api::playlist".data = ["playlist".data, "pandora_api".data] := by
  decide

theorem rsplitn2_crate_root :
    rsplitn2 colons "pandora_api".data = ["pandora_api".data] := by decide

/-! Lemmas about the scope split -/
theorem splitFirst_colons_none {t : List Char} (h : ':' ∉ t) :
    splitFirst colons t = none := by
  induction t with
  | nil => rfl
  | cons c cs ih =>
    simp only [List.mem_cons, not_or] at h
    have hbeq : (':' == c) = false := by
      simp only [beq_eq_false_iff_ne, ne_eq]
      exact fun hc => h.1 hc
    have hpre : colons.isPrefixOf (c :: cs) = false := by
      simp [colons, List.isPrefixOf, hbeq]
    simp [splitFirst, hpre, ih h.2]

theorem splitFirst_colons_at (t r : List Char) (h : ':' ∉ t) :
    splitFirst colons (t ++ ':' :: ':' :: r) = some (t, r) := by
  induction t with
  | nil =>
    have hpre : colons.isPrefixOf (':' :: ':' :: r) = true := by
      simp [colons, List.isPrefixOf]
    simp [splitFirst, hpre, colons]
  | cons c cs ih =>
    simp only [List.mem_cons, not_or] at h
    have hbeq : (':' == c) = false := by
      simp only [beq_eq_false_iff_ne, ne_eq]
      exact fun hc => h.1 hc
    have hpre : colons.isPrefixOf (c :: (cs ++ ':' :: ':' :: r)) = false := by
      simp [colons, List.isPrefixOf, hbeq]
    simp [splitFirst, hpre, ih h.2]

theorem colons_reverse : colons.reverse = colons := by decide

theorem rsplitn2_no_sep {s : List Char} (h : ':' ∉ s) :
    rsplitn2 colons s = [s] := by
  have h' : ':' ∉ s.reverse := by simpa using h
  simp [rsplitn2, colons_reverse, splitFirst_colons_none h']

theorem rsplitn2_last (a b : List Char) (hb : ':' ∉ b) :
    rsplitn2 colons (a ++ ':' :: ':' :: b) = [b, a] := by
  have hb' : ':' ∉ b.reverse := by simpa using hb
  have hrev : (a ++ ':' :: ':' :: b).reverse = b.reverse ++ ':' :: ':' :: a.reverse := by
    simp [List.reverse_append]
  simp [rsplitn2, colons_reverse, hrev, splitFirst_colons_at _ _ hb']

theorem joinPath_concat (xs : List (List Char)) (x : List Char) (h : xs ≠ []) :
    joinPath (xs ++ [x]) = joinPath xs ++ ':' :: ':' :: x := by
  induction xs with
  | nil => exact absurd rfl h
  | cons y ys ih =>
    cases ys with
    | nil => simp [joinPath]
    | cons y2 ys' =>
      have hstep := ih (by simp)
      simp only [List.cons_append, List.append_eq, joinPath] at hstep ⊢
      rw [hstep]
      simp

theorem rsplitn2_joinPath_head (segs : List (List Char)) (x : List Char)
    (hx : segs.getLast? = some x) (hc : ∀ t ∈ segs, ':' ∉ t) :
    (rsplitn2 colons (joinPath segs)).head? = some x := by
  rcases segs.eq_nil_or_concat with rfl | ⟨xs, y, rfl⟩
  · simp at hx
  · rw [List.concat_eq_append] at hx hc ⊢
    have hy : y = x := by
      rw [List.getLast?_concat] at hx
      exact Option.some.inj hx
    subst hy
    have hyc : ':' ∉ y := hc y (by simp)
    cases xs with
    | nil => simp [joinPath, rsplitn2_no_sep hyc]
    | cons z zs =>
      rw [joinPath_concat _ _ (by simp), rsplitn2_last _ _ hyc]
      rfl

/-! Claim C1 -/
/-- C1: for every declaration without a `method_name` override, the generated
`get_method()` returns, under the JSON kind, `scope ++ "." ++
lowerCamelCase ident`, and under the REST kind, `"/api/v1/" ++ scope ++ "/"
++ lowerCamelCase ident`, where `scope` is the rightmost segment of the
invocation site's namespace path (segments joined by `"::"`, no segment
containing a colon). -/
theorem c1_derived_method_formats (segs : List (List Char)) (x : List Char)
    (hx : segs.getLast? = some x) (hc : ∀ t ∈ segs, ':' ∉ t)
    (d : RequestDescriptor) (hm : d.method_name = none) :
    evalGetMethod ((jsonToTokens d).getMethod) (joinPath segs)
        = RunResult.ok (x ++ '.' :: lowerCamelCase d.ident.data)
      ∧ evalGetMethod ((restToTokens d).getMethod) (joinPath segs)
        = RunResult.ok ("/api/v1/".data ++ x ++ '/' :: lowerCamelCase d.ident.data) := by
  have hhead := rsplitn2_joinPath_head segs x hx hc
  constructor
  · simp [jsonToTokens, hm, evalGetMethod, hhead, applyFormat]
  · simp [restToTokens, hm, evalGetMethod, hhead, applyFormat]

/-- Witness for C1: in scope `pandora_api::playlist`, `GetPlaylist` yields
`"playlist.getPlaylist"` under the JSON kind and
`"/api/v1/playlist/getPlaylist"` under the REST kind. -/
theorem c1_witness :
    evalGetMethod ((jsonToTokens descGetPlaylist).getMethod)
        (joinPath ["pandora_api".data, "playlist".data])
      = RunResult.ok "playlist.getPlaylist".data
    ∧ evalGetMethod ((restToTokens descGetPlaylist).getMethod)
        (joinPath ["pandora_api".data, "playlist".data])
      = RunResult.ok "/api/v1/playlist/getPlaylist".data := by
  have h := c1_derived_method_formats ["pandora_api".data, "playlist".data]
    "playlist".data (by decide) (by decide) descGetPlaylist rfl
  exact ⟨h.1.trans (by decide), h.2.trans (by decide)⟩

/-! Claim C10 -/
/-- C10: `rsplitn(2, "::").next()` yields a value for every module path
string, so the `expect` failure branch of the generated `get_method` is
unreachable and the derived-name body is total. -/
theorem c10_scope_split_total (s : List Char) (fmt : MethodFormat) (m : String) :
    (rsplitn2 colons s).head?.isSome = true
      ∧ ∃ out, evalGetMethod (GetMethodDecl.derived fmt m) s = RunResult.ok out := by
  have hne : rsplitn2 colons s ≠ [] := by
    unfold rsplitn2
    cases splitFirst colons.reverse s.reverse <;> simp
  rcases hl : rsplitn2 colons s with _ | ⟨cls, rest⟩
  · exact absurd hl hne
  · exact ⟨by simp [hl], applyFormat fmt cls m.data, by simp [evalGetMethod, hl]⟩

/-! Claim C2 -/
/-- C2 (code bug): with `method_name = "getFOOBar"` the generated
`get_method()` body is `stringify!("getFOOBar").to_string()`, whose value is
the source text of the string-literal token — the override wrapped in
double-quote characters — not the override verbatim. The same (wrong) value
is produced under both kinds and independently of the scope, so the
scope-independence half of the claim holds while the verbatim half fails. -/
theorem c2_override_stringified :
    evalGetMethod ((jsonToTokens descGetFooOverride).getMethod) "pandora_api::user".data
        = RunResult.ok "\"getFOOBar\"".data
      ∧ evalGetMethod ((restToTokens descGetFooOverride).getMethod) "pandora_api::user".data
        = RunResult.ok "\"getFOOBar\"".data
      ∧ evalGetMethod ((jsonToTokens descGetFooOverride).getMethod) "pandora_api".data
        = RunResult.ok "\"getFOOBar\"".data
      ∧ "\"getFOOBar\"".data ≠ "getFOOBar".data := by
  refine ⟨?_, ?_, ?_, ?_⟩ <;> decide

/-! Claim C3 -/
/-- C3 counterexample: on an unparsable declaration the entry points panic
(the `unwrap` of `syn::parse`); the outcome is not a spanned diagnostic
emitted by the generator. -/
theorem c3_counterexample :
    derive_pandora_json_request (Except.error "expected struct" : Except String Unit)
        (fun _ => Except.ok descGetPlaylist) = ExpansionOutcome.panicked unwrapMsg
      ∧ derive_pandora_rest_request (Except.error "expected struct" : Except String Unit)
        (fun _ => Except.ok descGetPlaylist) = ExpansionOutcome.panicked unwrapMsg
      ∧ isDiagnostic (derive_pandora_json_request
          (Except.error "expected struct" : Except String Unit)
          (fun _ => Except.ok descGetPlaylist)) = false :=
  ⟨rfl, rfl, rfl⟩

/-- C3 (amended): both failure kinds make the entry point panic — `unwrap`
on a `syn::parse` failure, `expect("Failed parsing macro input")` on a
darling schema failure — and no implementation is emitted for that
invocation; the generator never produces a spanned diagnostic itself. -/
theorem c3_amended_panics {α : Type} (e : String)
    (f : α → Except String RequestDescriptor) (a : α) (e' : String)
    (hf : f a = Except.error e') :
    derive_pandora_json_request (Except.error e) f = ExpansionOutcome.panicked unwrapMsg
      ∧ derive_pandora_json_request (Except.ok a) f
          = ExpansionOutcome.panicked "Failed parsing macro input"
      ∧ derive_pandora_rest_request (Except.error e) f = ExpansionOutcome.panicked unwrapMsg
      ∧ derive_pandora_rest_request (Except.ok a) f
          = ExpansionOutcome.panicked "Failed parsing macro input" := by
  refine ⟨rfl, ?_, rfl, ?_⟩ <;>
    simp [derive_pandora_json_request, derive_pandora_rest_request, hf]

/-- Witness for the amended C3, at a schema-violating attribute (darling
rejects an unknown key). -/
theorem c3_amended_witness :
    derive_pandora_json_request (Except.error "unexpected token" : Except String Unit)
        (fun _ => Except.error "Unknown field: bogus_key")
      = ExpansionOutcome.panicked unwrapMsg
    ∧ derive_pandora_json_request (Except.ok () : Except String Unit)
        (fun _ => Except.error "Unknown field: bogus_key")
      = ExpansionOutcome.panicked "Failed parsing macro input"
    ∧ derive_pandora_rest_request (Except.error "unexpected token" : Except String Unit)
        (fun _ => Except.error "Unknown field: bogus_key")
      = ExpansionOutcome.panicked unwrapMsg
    ∧ derive_pandora_rest_request (Except.ok () : Except String Unit)
        (fun _ => Except.error "Unknown field: bogus_key")
      = ExpansionOutcome.panicked "Failed parsing macro input" :=
  c3_amended_panics "unexpected token" (fun _ => Except.error "Unknown field: bogus_key")
    () "Unknown field: bogus_key" rfl

/-! Claim C4 -/
/-- C4 counterexample: at the outermost scope (`module_path!()` is the bare
crate name, no `"::"`), a declaration with no `method_name` override does
not fail — the entry point emits an implementation, no diagnostic is
produced, and the generated `get_method` succeeds using the crate name as
the scope. -/
theorem c4_counterexample :
    derive_pandora_json_request (Except.ok () : Except String Unit)
        (fun _ => Except.ok descGetFoo) = ExpansionOutcome.emitted (jsonToTokens descGetFoo)
      ∧ evalGetMethod ((jsonToTokens descGetFoo).getMethod) "pandora_api".data
        = RunResult.ok "pandora_api.getFoo".data
      ∧ isDiagnostic (derive_pandora_json_request (Except.ok () : Except String Unit)
          (fun _ => Except.ok descGetFoo)) = false := by
  refine ⟨rfl, by decide, rfl⟩

/-- C4 (amended): a declaration with no `method_name` override whose
expansion context has no enclosing namespace separator (a colon-free
`module_path!()`, i.e. the bare crate name) still generates successfully:
`get_method` uses the whole path as the scope, and the `expect` guard never
fires. -/
theorem c4_amended_crate_root (d : RequestDescriptor) (hm : d.method_name = none)
    (p : List Char) (hp : ':' ∉ p) :
    evalGetMethod ((jsonToTokens d).getMethod) p
        = RunResult.ok (p ++ '.' :: lowerCamelCase d.ident.data)
      ∧ evalGetMethod ((restToTokens d).getMethod) p
        = RunResult.ok ("/api/v1/".data ++ p ++ '/' :: lowerCamelCase d.ident.data) := by
  have h := rsplitn2_no_sep hp
  constructor <;> simp [jsonToTokens, restToTokens, hm, evalGetMethod, h, applyFormat]

/-- Witness for the amended C4 at `GetFoo` in crate `pandora_api`. -/
theorem c4_amended_witness :
    evalGetMethod ((jsonToTokens descGetFoo).getMethod) "pandora_api".data
        = RunResult.ok "pandora_api.getFoo".data
      ∧ evalGetMethod ((restToTokens descGetFoo).getMethod) "pandora_api".data
        = RunResult.ok "/api/v1/pandora_api/getFoo".data := by
  have h := c4_amended_crate_root descGetFoo rfl "pandora_api".data (by decide)
  exact ⟨h.1.trans (by decide), h.2.trans (by decide)⟩

/-! Claim C5 -/
/-- C5: with no overrides, the resolved response type is
`ident ++ "Response"`, the resolved error type is `"Error"`, and the
effective encrypted flag is `false` (the last via the trait default the
crate documents, see `effectiveEncrypt`). -/
theorem c5_defaults (d : RequestDescriptor) (h1 : d.response_type = none)
    (h2 : d.error_type = none) (h3 : d.encrypted = none) :
    (jsonToTokens d).responseType = d.ident ++ "Response"
      ∧ (jsonToTokens d).errorType = "Error"
      ∧ effectiveEncrypt (jsonToTokens d) = false
      ∧ (restToTokens d).responseType = d.ident ++ "Response"
      ∧ (restToTokens d).errorType = "Error"
      ∧ effectiveEncrypt (restToTokens d) = false := by
  simp [jsonToTokens, restToTokens, effectiveEncrypt, h1, h2, h3]

/-- Witness for C5 at the spec's `GetPlaylist` example. -/
theorem c5_witness :
    (jsonToTokens descGetPlaylist).responseType = "GetPlaylistResponse"
      ∧ (jsonToTokens descGetPlaylist).errorType = "Error"
      ∧ effectiveEncrypt (jsonToTokens descGetPlaylist) = false
      ∧ (restToTokens descGetPlaylist).responseType = "GetPlaylistResponse"
      ∧ (restToTokens descGetPlaylist).errorType = "Error"
      ∧ effectiveEncrypt (restToTokens descGetPlaylist) = false := by
  have h := c5_defaults descGetPlaylist rfl rfl rfl
  exact ⟨h.1.trans (by decide), h.2.1, h.2.2.1, h.2.2.2.1.trans (by decide),
    h.2.2.2.2.1, h.2.2.2.2.2⟩

/-! Claim C6 -/
/-- C6 counterexample: with the `encrypted` key absent, the emitted impl
block contains no `encrypt_request` item at all — the accessor the claim
asserts to be present is missing (the `false` the author observes comes from
the external trait's default method, not from the Generated
Implementation). -/
theorem c6_counterexample :
    (jsonToTokens descGetPlaylist).encryptRequest = none
      ∧ (restToTokens descGetPlaylist).encryptRequest = none
      ∧ (jsonToTokens descGetPlaylist).encryptRequest.isSome = false :=
  ⟨rfl, rfl, rfl⟩

/-- C6 (amended): the generator emits an `encrypt_request` accessor exactly
when the `encrypted` override is present, returning that constant; when the
override is absent no accessor is emitted, and the effective value under the
trait's documented default is `false`. -/
theorem c6_amended_encrypt (d : RequestDescriptor) :
    (jsonToTokens d).encryptRequest = d.encrypted
      ∧ (restToTokens d).encryptRequest = d.encrypted
      ∧ effectiveEncrypt (jsonToTokens d) = d.encrypted.getD false
      ∧ effectiveEncrypt (restToTokens d) = d.encrypted.getD false :=
  ⟨rfl, rfl, rfl, rfl⟩

/-! Claim C8 -/
/-- C8: the emitted impl reproduces the declaration's generics — the impl
generics keep the declared parameters (with bounds), the type generics are
their names, and the where clause is passed through — under both kinds, so
the impl covers every instantiation of a generic struct. -/
theorem c8_generics_threaded (d : RequestDescriptor) :
    (jsonToTokens d).implGenerics = d.generics.params
      ∧ (jsonToTokens d).tyGenerics = d.generics.params.map GenericParam.name
      ∧ (jsonToTokens d).whereClause = d.generics.whereClause
      ∧ (jsonToTokens d).selfTy = d.ident
      ∧ (restToTokens d).implGenerics = d.generics.params
      ∧ (restToTokens d).tyGenerics = d.generics.params.map GenericParam.name
      ∧ (restToTokens d).whereClause = d.generics.whereClause
      ∧ (restToTokens d).selfTy = d.ident :=
  ⟨rfl, rfl, rfl, rfl, rfl, rfl, rfl, rfl⟩

/-! Claim C9 -/
/-- C9: for every input descriptor the REST generator's output is exactly
the JSON generator's output with the trait name and the derived-branch
format template exchanged; response type, error type, encrypt item,
override handling and the lower-camel-case member name agree. -/
theorem c9_json_rest_agree (d : RequestDescriptor) :
    restToTokens d = retargetToRest (jsonToTokens d)
      ∧ (restToTokens d).responseType = (jsonToTokens d).responseType
      ∧ (restToTokens d).errorType = (jsonToTokens d).errorType
      ∧ (restToTokens d).encryptRequest = (jsonToTokens d).encryptRequest := by
  refine ⟨?_, rfl, rfl, rfl⟩
  cases hm : d.method_name <;>
    simp [restToTokens, jsonToTokens, retargetToRest, hm]

/-! Claim C7 -/
/-- C7 counterexample: the conversion is not idempotent. `"a_b_c"` converts
to `"aBC"` (each single-letter word is capitalized), but converting again
re-segments the uppercase run `"BC"` into one word and capitalizes it to
`"Bc"`, giving `"aBc"`. -/
theorem c7_counterexample :
    lowerCamelCase "a_b_c".data = "aBC".data
      ∧ lowerCamelCase (lowerCamelCase "a_b_c".data) = "aBc".data
      ∧ lowerCamelCase (lowerCamelCase "a_b_c".data) ≠ lowerCamelCase "a_b_c".data := by
  refine ⟨?_, ?_, ?_⟩ <;> decide

theorem splitOnPred_all {p : Char → Bool} {s : List Char}
    (h : s.all (fun c => !(p c)) = true) (hne : s ≠ []) :
    splitOnPred p s = [s] := by
  induction s with
  | nil => exact absurd rfl hne
  | cons c cs ih =>
    simp only [List.all_cons, Bool.and_eq_true, Bool.not_eq_true'] at h
    cases cs with
    | nil => simp [splitOnPred, h.1]
    | cons c2 cs2 =>
      have ih' := ih h.2 (by simp)
      rw [splitOnPred, if_neg (by simp [h.1]), ih']

theorem segment_lower_run (t : List Char) (u : Char) (rest : List Char)
    (ht : t.all isAsciiLower = true) (hne : t ≠ []) (hu : isAsciiUpper u = true) :
    ∀ mode acc, segmentCore mode acc (t ++ u :: rest)
      = (acc ++ t) :: segmentCore .boundary [] (u :: rest) := by
  induction t with
  | nil => exact absurd rfl hne
  | cons c cs ih =>
    intro mode acc
    simp only [List.all_cons, Bool.and_eq_true] at ht
    cases cs with
    | nil =>
      simp [segmentCore, nextModeOf, ht.1, hu]
    | cons c2 cs2 =>
      have hc2l : isAsciiLower c2 = true := by
        have := ht.2
        simp only [List.all_cons, Bool.and_eq_true] at this
        exact this.1
      have hc2u := lower_not_upper hc2l
      have hcu := lower_not_upper ht.1
      simp only [List.cons_append, List.append_eq, segmentCore, nextModeOf, ht.1,
        hc2u, hcu, if_true, reduceCtorEq, and_false, false_and, and_true, if_false]
      rw [← List.cons_append, ih ht.2 (by simp)]
      simp

theorem segment_lower_end (t : List Char) (ht : t.all isAsciiLower = true)
    (hne : t ≠ []) : ∀ mode acc, segmentCore mode acc t = [acc ++ t] := by
  induction t with
  | nil => exact absurd rfl hne
  | cons c cs ih =>
    intro mode acc
    simp only [List.all_cons, Bool.and_eq_true] at ht
    cases cs with
    | nil => simp [segmentCore]
    | cons c2 cs2 =>
      have hc2l : isAsciiLower c2 = true := by
        have := ht.2
        simp only [List.all_cons, Bool.and_eq_true] at this
        exact this.1
      have hc2u := lower_not_upper hc2l
      have hcu := lower_not_upper ht.1
      simp only [segmentCore, nextModeOf, ht.1, hc2u, hcu,
        if_true, reduceCtorEq, and_false, false_and, and_true, if_false]
      rw [ih ht.2 (by simp)]
      simp

theorem segment_cap_words (ws : List (List Char)) (h : ws.all isCapWord = true) :
    segmentCore .boundary [] (flattenWords ws) = ws := by
  induction ws with
  | nil => rfl
  | cons w ws' ih =>
    simp only [List.all_cons, Bool.and_eq_true] at h
    obtain ⟨hw, hws'⟩ := h
    cases w with
    | nil => simp [isCapWord] at hw
    | cons u t =>
      cases t with
      | nil => simp [isCapWord] at hw
      | cons c0 t0 =>
        simp only [isCapWord, Bool.and_eq_true, Bool.not_eq_true',
          List.isEmpty_cons] at hw
        obtain ⟨⟨hu, -⟩, hall⟩ := hw
        have hul := upper_not_lower hu
        have hc0l : isAsciiLower c0 = true := by
          simp only [List.all_cons, Bool.and_eq_true] at hall
          exact hall.1
        have hc0u := lower_not_upper hc0l
        simp only [flattenWords, List.cons_append, List.append_eq, segmentCore,
          nextModeOf, hul, hu, if_true, reduceCtorEq, and_false, false_and,
          and_true, if_false]
        cases ws' with
        | nil =>
          simp only [flattenWords, List.append_nil, List.nil_append]
          rw [segment_lower_end (c0 :: t0) hall (by simp)]
          simp
        | cons w2 ws2 =>
          have hw2 : isCapWord w2 = true := by
            simp only [List.all_cons, Bool.and_eq_true] at hws'
            exact hws'.1
          cases w2 with
          | nil => simp [isCapWord] at hw2
          | cons u2 t2 =>
            have hu2 : isAsciiUpper u2 = true := by
              cases t2 <;> simp only [isCapWord, Bool.and_eq_true] at hw2 <;>
                exact hw2.1.1
            simp only [List.nil_append]
            rw [show (flattenWords ((u2 :: t2) :: ws2))
                  = (u2 :: (t2 ++ flattenWords ws2)) by simp [flattenWords]]
            rw [show (c0 :: (t0 ++ u2 :: (t2 ++ flattenWords ws2)))
                  = ((c0 :: t0) ++ u2 :: (t2 ++ flattenWords ws2)) by simp]
            rw [segment_lower_run (c0 :: t0) u2 (t2 ++ flattenWords ws2) hall
              (by simp) hu2]
            rw [show (u2 :: (t2 ++ flattenWords ws2))
                  = flattenWords ((u2 :: t2) :: ws2) by simp [flattenWords]]
            rw [ih hws']
            simp

theorem segment_lcc_shape (w0 : List Char) (ws : List (List Char))
    (h0 : w0 ≠ []) (h0l : w0.all isAsciiLower = true)
    (hws : ws.all isCapWord = true) :
    segmentCore .boundary [] (w0 ++ flattenWords ws) = w0 :: ws := by
  cases ws with
  | nil =>
    simp only [flattenWords, List.append_nil]
    rw [segment_lower_end w0 h0l h0]
    simp
  | cons w ws' =>
    have hw : isCapWord w = true := by
      simp only [List.all_cons, Bool.and_eq_true] at hws
      exact hws.1
    cases w with
    | nil => simp [isCapWord] at hw
    | cons u t =>
      have hu : isAsciiUpper u = true := by
        cases t <;> simp only [isCapWord, Bool.and_eq_true] at hw <;> exact hw.1.1
      rw [show (w0 ++ flattenWords ((u :: t) :: ws'))
            = (w0 ++ u :: (t ++ flattenWords ws')) by simp [flattenWords]]
      rw [segment_lower_run w0 u (t ++ flattenWords ws') h0l h0 hu]
      rw [show (u :: (t ++ flattenWords ws')) = flattenWords ((u :: t) :: ws') by
        simp [flattenWords]]
      rw [segment_cap_words _ hws]
      simp

theorem all_lower_alnum {w : List Char} (h : w.all isAsciiLower = true) :
    w.all isAlnumChar = true := by
  induction w with
  | nil => rfl
  | cons c cs ih =>
    simp only [List.all_cons, Bool.and_eq_true] at h ⊢
    exact ⟨by simp [isAlnumChar, h.1], ih h.2⟩

theorem capWord_all_alnum {w : List Char} (h : isCapWord w = true) :
    w.all isAlnumChar = true := by
  cases w with
  | nil => simp [isCapWord] at h
  | cons u t =>
    simp only [isCapWord, Bool.and_eq_true] at h
    simp only [List.all_cons, Bool.and_eq_true]
    exact ⟨by simp [isAlnumChar, h.1.1], all_lower_alnum h.2⟩

theorem flattenWords_all_alnum {ws : List (List Char)}
    (h : ws.all isCapWord = true) :
    (flattenWords ws).all isAlnumChar = true := by
  induction ws with
  | nil => rfl
  | cons w ws' ih =>
    simp only [List.all_cons, Bool.and_eq_true] at h
    simp only [flattenWords, List.all_append, Bool.and_eq_true]
    exact ⟨capWord_all_alnum h.1, ih h.2⟩

theorem map_lower_fix {t : List Char} (h : t.all isAsciiLower = true) :
    t.map asciiToLower = t := by
  induction t with
  | nil => rfl
  | cons c cs ih =>
    simp only [List.all_cons, Bool.and_eq_true] at h
    simp [asciiToLower_fix h.1, ih h.2]

theorem capitalizeAll_fix {ws : List (List Char)} (h : ws.all isCapWord = true) :
    capitalizeAll ws = flattenWords ws := by
  induction ws with
  | nil => rfl
  | cons w ws' ih =>
    simp only [List.all_cons, Bool.and_eq_true] at h
    obtain ⟨hw, hws'⟩ := h
    cases w with
    | nil => simp [isCapWord] at hw
    | cons u t =>
      simp only [isCapWord, Bool.and_eq_true] at hw
      simp only [capitalizeAll, capitalizeWord, flattenWords]
      rw [asciiToUpper_fix hw.1.1, map_lower_fix hw.2, ih hws']

/-- C7 (amended): the conversion is not idempotent in general (see the
counterexample `c7_counterexample`), but it is the identity on strings
already in strict lower-camel-case form: a nonempty run of ASCII lowercase
letters followed by words each made of one ASCII uppercase letter and a
nonempty lowercase tail. -/
theorem c7_amended_lcc_noop (w0 : List Char) (ws : List (List Char))
    (h0 : w0 ≠ []) (h0l : w0.all isAsciiLower = true)
    (hws : ws.all isCapWord = true) :
    lowerCamelCase (w0 ++ flattenWords ws) = w0 ++ flattenWords ws := by
  have hall : ((w0 ++ flattenWords ws).all fun c => !((fun c => !isAlnumChar c) c)) = true := by
    simp only [Bool.not_not]
    simp only [List.all_append, Bool.and_eq_true]
    exact ⟨all_lower_alnum h0l, flattenWords_all_alnum hws⟩
  have hne : w0 ++ flattenWords ws ≠ [] := by
    cases w0
    · exact absurd rfl h0
    · simp
  have hsplit : splitWords (w0 ++ flattenWords ws) = [w0 ++ flattenWords ws] :=
    splitOnPred_all hall hne
  rw [lowerCamelCase, splitWords] at *
  rw [hsplit]
  simp only [segmentAll, List.append_nil, segmentWord]
  rw [segment_lcc_shape w0 ws h0 h0l hws]
  show lowercaseWord w0 ++ capitalizeAll ws = w0 ++ flattenWords ws
  rw [capitalizeAll_fix hws]
  show w0.map asciiToLower ++ flattenWords ws = w0 ++ flattenWords ws
  rw [map_lower_fix h0l]

/-- Witness for the amended C7: `"getPlaylist"` is in strict
lower-camel-case form and converting it is a no-op. -/
theorem c7_amended_witness :
    lowerCamelCase "getPlaylist".data = "getPlaylist".data := by
  have h := c7_amended_lcc_noop "get".data ['P' :: "laylist".data]
    (by decide) (by decide) (by decide)
  have e : "get".data ++ flattenWords ['P' :: "laylist".data] = "getPlaylist".data := by
    decide
  rw [e] at h
  exact h
